import Mathlib

/-!
Verification of the Newton-Raphson iteration engine of the komnum repository
(`src/app/page.tsx`, function `calculateNewtonRaphson`).

The engine is embedded shallowly:

* JavaScript numbers are modelled by `JsNum`: exact rationals extended with
  the non-finite values `nan`, `inf` (positive infinity) and `ninf`
  (negative infinity).  The arithmetic operations follow the IEEE-754 rules
  JavaScript uses for these values (for example `0 * inf = nan`,
  `1 / 0 = inf`, `0 / 0 = nan`, `inf - inf = nan`), with exact rational
  arithmetic in place of binary64 rounding; the model does not distinguish
  `-0` from `0`.
* The mathjs calls `evaluate(equation, ...)` / `derivative(...)` are an
  external collaborator.  They are modelled by an abstract `Evaluator`
  record of three fallible functions (the function, its first derivative
  and its second derivative, each evaluated at a point); a thrown exception
  is an `Except.error` carrying the message.
* `Number.prototype.toFixed(2)`, used only when populating the displayed
  record fields, is modelled by `JsNum.toFixed2` (rounding a finite value
  to a multiple of 1/100; non-finite values display as themselves).
* `parseFloat` of the initial-guess text and of the true-root text happens
  before the engine loop; the embedding takes the parse results as inputs
  (`RunConfig.x0`, `RunConfig.trueRootParsed`), with `nan` standing for an
  empty or unparseable text, exactly the value `parseFloat` produces there.
-/

set_option allowUnsafeReducibility true
attribute [local semireducible] Rat.add Rat.mul Rat.inv Rat.sub Rat.ofScientific

/-- Equality of `Except` results is decidable when both components are;
used to evaluate the engine on concrete inputs in the witnesses below. -/
instance {ε α : Type} [DecidableEq ε] [DecidableEq α] :
    DecidableEq (Except ε α) := fun x y =>
  match x, y with
  | Except.ok a, Except.ok b =>
    if h : a = b then isTrue (by rw [h])
    else isFalse (by intro hc; injection hc; contradiction)
  | Except.error e, Except.error e₂ =>
    if h : e = e₂ then isTrue (by rw [h])
    else isFalse (by intro hc; injection hc; contradiction)
  | Except.ok _, Except.error _ => isFalse (fun hc => Except.noConfusion hc)
  | Except.error _, Except.ok _ => isFalse (fun hc => Except.noConfusion hc)

namespace Komnum

/-- A JavaScript number: a finite (exact) rational, or NaN, or an infinity. -/
inductive JsNum where
  | num (q : ℚ)
  | nan
  | inf
  | ninf
deriving DecidableEq

namespace JsNum

/-- Negation of a JavaScript number. -/
def neg : JsNum → JsNum
  | num q => num (-q)
  | nan => nan
  | inf => ninf
  | ninf => inf

/-- Addition, with the IEEE rules `inf + ninf = nan` and NaN propagation. -/
def add : JsNum → JsNum → JsNum
  | nan, _ => nan
  | _, nan => nan
  | num a, num b => num (a + b)
  | num _, inf => inf
  | num _, ninf => ninf
  | inf, num _ => inf
  | ninf, num _ => ninf
  | inf, inf => inf
  | ninf, ninf => ninf
  | inf, ninf => nan
  | ninf, inf => nan

/-- Subtraction `a - b`, defined as `a + (-b)` as in IEEE arithmetic. -/
def sub (a b : JsNum) : JsNum := add a (neg b)

/-- Multiplication, with `0 * inf = nan` and NaN propagation. -/
def mul : JsNum → JsNum → JsNum
  | nan, _ => nan
  | _, nan => nan
  | num a, num b => num (a * b)
  | num a, inf => if a = 0 then nan else if 0 < a then inf else ninf
  | num a, ninf => if a = 0 then nan else if 0 < a then ninf else inf
  | inf, num b => if b = 0 then nan else if 0 < b then inf else ninf
  | ninf, num b => if b = 0 then nan else if 0 < b then ninf else inf
  | inf, inf => inf
  | inf, ninf => ninf
  | ninf, inf => ninf
  | ninf, ninf => inf

/-- Division.  A nonzero finite value divided by zero gives a signed
infinity, `0 / 0` gives NaN, a finite value divided by an infinity gives
zero, `inf / inf` gives NaN (the model has no negative zero, so division
of an infinity by zero gives the infinity of the numerator sign). -/
def div : JsNum → JsNum → JsNum
  | nan, _ => nan
  | _, nan => nan
  | num a, num b =>
      if b = 0 then (if a = 0 then nan else if 0 < a then inf else ninf)
      else num (a / b)
  | num _, inf => num 0
  | num _, ninf => num 0
  | inf, num b => if b < 0 then ninf else inf
  | ninf, num b => if b < 0 then inf else ninf
  | inf, inf => nan
  | inf, ninf => nan
  | ninf, inf => nan
  | ninf, ninf => nan

/-- `Math.abs`. -/
def abs : JsNum → JsNum
  | num q => num |q|
  | nan => nan
  | inf => inf
  | ninf => inf

/-- `Number.isFinite`: true exactly on finite values. -/
def isFinite : JsNum → Bool
  | num _ => true
  | _ => false

/-- `x.toFixed(2)`: the displayed value, rounded to two decimal places.
Non-finite values are displayed as themselves ("NaN", "Infinity"). -/
def toFixed2 : JsNum → JsNum
  | num q => num (((round (q * 100) : ℤ) : ℚ) / 100)
  | v => v

end JsNum

instance : Neg JsNum := ⟨JsNum.neg⟩
instance : Add JsNum := ⟨JsNum.add⟩
instance : Sub JsNum := ⟨JsNum.sub⟩
instance : Mul JsNum := ⟨JsNum.mul⟩
instance : Div JsNum := ⟨JsNum.div⟩

/-- The method selector (`"standard" | "modified"` in the source). -/
inductive Method where
  | standard
  | modified
deriving DecidableEq

/-- One row of the result table (`IterationResult` in the source).  The
source stores the rounded display strings; the embedding keeps, for every
displayed field, both the full-precision value the engine computed
(`x`, `fx`, `fpx`, `fppx`, `x_next`, `ea`, `et`) and the rounded value
actually placed in the record (`xDisp`, ..., the `toFixed(2)` images).
`fppx` is `none` for the standard method, matching the source where the
`fppx` field is absent from the pushed record in the standard branch. -/
structure IterationResult where
  iteration : ℕ
  x : JsNum
  fx : JsNum
  fpx : JsNum
  fppx : Option JsNum
  x_next : JsNum
  ea : JsNum
  et : JsNum
  xDisp : JsNum
  fxDisp : JsNum
  fpxDisp : JsNum
  fppxDisp : Option JsNum
  x_nextDisp : JsNum
  eaDisp : JsNum
  etDisp : JsNum
deriving DecidableEq

instance : Inhabited IterationResult :=
  ⟨⟨0, JsNum.nan, JsNum.nan, JsNum.nan, none, JsNum.nan, JsNum.nan, JsNum.nan,
    JsNum.nan, JsNum.nan, JsNum.nan, none, JsNum.nan, JsNum.nan, JsNum.nan⟩⟩

/-- The external expression-evaluation capability: `f` models
`evaluate(equation, ⦃x⦄)`, `fp` models evaluating the first symbolic
derivative at `x`, `fpp` the second.  An exception thrown by mathjs is an
`Except.error` carrying its message. -/
structure Evaluator where
  f : JsNum → Except String JsNum
  fp : JsNum → Except String JsNum
  fpp : JsNum → Except String JsNum

/-- The caller-supplied configuration of one run.  `x0` is the result of
`parseFloat(initialGuess)` and `trueRootParsed` the result of
`parseFloat(trueRoot)` (NaN when the text is empty or unparseable). -/
structure RunConfig where
  x0 : JsNum
  iterations : ℕ
  method : Method
  trueRootParsed : JsNum

/-- `parseFloat(trueRoot) || 0`: NaN and zero are the falsy numbers, so
they are replaced by 0; every other value (including the infinities) is
kept. -/
def resolveTrueRoot (v : JsNum) : JsNum :=
  if v = JsNum.nan ∨ v = JsNum.num 0 then JsNum.num 0 else v

/-- One pass of the loop body of `calculateNewtonRaphson`: evaluate
`fx = f(x0)`, `fpx = fPrime(x0)`, `fppx = fDoublePrime(x0)` (in the source
all three are evaluated before the method branch, also under the standard
method; here the same three evaluations, in the same order, open each
branch), then compute the next iterate, the true error `et` and the
approximate error `ea` on the full-precision values, and build the record
whose displayed fields are the `toFixed(2)` images.  `t` is the resolved
true-root value and `i` the zero-based loop counter.  In the standard
branch `fppx` is bound (its evaluation can still fail) but unused, as in
the source.  `fpx * fpx` models `Math.pow(fpx, 2)`, which agrees with
multiplication also on non-finite values. -/
def stepRecord (ev : Evaluator) :
    Method → JsNum → ℕ → JsNum → Except String IterationResult
  | Method.standard, t, i, x =>
    Except.bind (ev.f x) fun fx =>
      Except.bind (ev.fp x) fun fpx =>
        Except.bind (ev.fpp x) fun _fppx =>
          let x1 := x - fx / fpx
          let et := ((t - x1) / t).abs * JsNum.num 100
          let ea := ((x1 - x) / x1).abs * JsNum.num 100
          Except.ok
            { iteration := i + 1, x := x, fx := fx, fpx := fpx, fppx := none,
              x_next := x1, ea := ea, et := et,
              xDisp := x.toFixed2, fxDisp := fx.toFixed2,
              fpxDisp := fpx.toFixed2, fppxDisp := none,
              x_nextDisp := x1.toFixed2, eaDisp := ea.toFixed2,
              etDisp := et.toFixed2 }
  | Method.modified, t, i, x =>
    Except.bind (ev.f x) fun fx =>
      Except.bind (ev.fp x) fun fpx =>
        Except.bind (ev.fpp x) fun fppx =>
          let numerator := fx * fpx
          let denominator := fpx * fpx - fx * fppx
          let x1 := x - numerator / denominator
          let et := ((t - x1) / t).abs * JsNum.num 100
          let ea := ((x1 - x) / x1).abs * JsNum.num 100
          Except.ok
            { iteration := i + 1, x := x, fx := fx, fpx := fpx,
              fppx := some fppx,
              x_next := x1, ea := ea, et := et,
              xDisp := x.toFixed2, fxDisp := fx.toFixed2,
              fpxDisp := fpx.toFixed2, fppxDisp := some fppx.toFixed2,
              x_nextDisp := x1.toFixed2, eaDisp := ea.toFixed2,
              etDisp := et.toFixed2 }

/-- The loop `for (let i = 0; i < iterations; i++)` of
`calculateNewtonRaphson`, remaining iteration count `n`, current loop
counter `i`, current full-precision iterate `x`.  The update `x0 = x1`
carries the full-precision `x_next` into the next pass.  A thrown
evaluation error aborts the whole loop, discarding the records already
accumulated. -/
def runAux (ev : Evaluator) (m : Method) (t : JsNum) :
    ℕ → ℕ → JsNum → Except String (List IterationResult)
  | 0, _, _ => Except.ok []
  | n + 1, i, x =>
    Except.bind (stepRecord ev m t i x) fun r =>
      Except.bind (runAux ev m t n (i + 1) r.x_next) fun rest =>
        Except.ok (r :: rest)

/-- The full-precision iterate entering loop pass `i + k`, starting from
iterate `x` at pass `i` and taking `k` passes, or the error thrown on the
way there. -/
def iterAfter (ev : Evaluator) (m : Method) (t : JsNum) :
    ℕ → ℕ → JsNum → Except String JsNum
  | _, 0, x => Except.ok x
  | i, k + 1, x =>
    Except.bind (stepRecord ev m t i x) fun r =>
      iterAfter ev m t (i + 1) k r.x_next

/-- `calculateNewtonRaphson`: resolve the true-root value once, then run
the fixed-length loop from `x0`.  Success returns the ordered record list
(`setResults`), failure returns the thrown message (`setError`). -/
def calculateNewtonRaphson (ev : Evaluator) (cfg : RunConfig) :
    Except String (List IterationResult) :=
  runAux ev cfg.method (resolveTrueRoot cfg.trueRootParsed)
    cfg.iterations 0 cfg.x0

/-- Whether an `Except` result is a success. -/
def exOk {ε α : Type} : Except ε α → Bool
  | Except.ok _ => true
  | Except.error _ => false

/-! Concrete evaluators used to instantiate the theorems.  Each models the
mathjs evaluator on a specific expression: on polynomials mathjs evaluates
without throwing and propagates non-finite inputs, which the `JsNum`
arithmetic reproduces. -/

/-- Evaluator for the expression `x^2 - 4` (spec scenario A): first
derivative `2 * x`, second derivative `2`. -/
def evPoly : Evaluator where
  f := fun x => Except.ok (x * x - JsNum.num 4)
  fp := fun x => Except.ok (JsNum.num 2 * x)
  fpp := fun _ => Except.ok (JsNum.num 2)

/-- Evaluator for `12*x^3 - 30*x^2 - 84*x + 48` (spec scenario B): first
derivative `36*x^2 - 60*x - 84`, second derivative `72*x - 60`. -/
def evCubic : Evaluator where
  f := fun x =>
    Except.ok (JsNum.num 12 * (x * x * x) - JsNum.num 30 * (x * x) -
      JsNum.num 84 * x + JsNum.num 48)
  fp := fun x =>
    Except.ok (JsNum.num 36 * (x * x) - JsNum.num 60 * x - JsNum.num 84)
  fpp := fun x => Except.ok (JsNum.num 72 * x - JsNum.num 60)

/-- Evaluator for the expression `x` (the anomaly scenario): derivative
`1`, second derivative `0`. -/
def evId : Evaluator where
  f := fun x => Except.ok x
  fp := fun _ => Except.ok (JsNum.num 1)
  fpp := fun _ => Except.ok (JsNum.num 0)

/-- Evaluator for a constant expression `1`: derivative `0`, second
derivative `0` (a zero first derivative under the standard method). -/
def evFlat : Evaluator where
  f := fun _ => Except.ok (JsNum.num 1)
  fp := fun _ => Except.ok (JsNum.num 0)
  fpp := fun _ => Except.ok (JsNum.num 0)

/-- The message of an evaluation failure used by the failing evaluators. -/
def msgEvalFail : String := "Undefined symbol in derivative"

/-- The message of a failing second-derivative evaluation. -/
def msgSecondDeriv : String := "Cannot evaluate second derivative"

/-- An evaluator whose first derivative fails to evaluate at `x = 0` but
succeeds elsewhere (the run below reaches `0` only at its second
iteration, so the failure strikes mid-run). -/
def evFailMid : Evaluator where
  f := fun x => Except.ok x
  fp := fun x =>
    if x = JsNum.num 0 then Except.error msgEvalFail
    else Except.ok (JsNum.num 1)
  fpp := fun _ => Except.ok (JsNum.num 0)

/-- An evaluator whose second derivative always fails to evaluate while
the function and first derivative succeed. -/
def evFailPP : Evaluator where
  f := fun x => Except.ok x
  fp := fun _ => Except.ok (JsNum.num 1)
  fpp := fun _ => Except.error msgSecondDeriv

/-! Concrete run configurations and their record lists. -/

/-- Modified run on the cubic from `x0 = -1`, one iteration, no true root
(spec scenario B). -/
def cfgC1 : RunConfig :=
  { x0 := JsNum.num (-1), iterations := 1, method := Method.modified,
    trueRootParsed := JsNum.nan }

/-- Standard run on `x^2 - 4` from the exact root `x0 = 2`, three
iterations (already converged: no early exit may occur). -/
def cfgC2 : RunConfig :=
  { x0 := JsNum.num 2, iterations := 3, method := Method.standard,
    trueRootParsed := JsNum.num 2 }

/-- Standard run on `x^2 - 4` from `x0 = 3`, two iterations (spec
scenario A: iteration 2 starts at the full-precision 13/6, not at the
displayed 2.17). -/
def cfgC3 : RunConfig :=
  { x0 := JsNum.num 3, iterations := 2, method := Method.standard,
    trueRootParsed := JsNum.num 2 }

/-- Standard run on `x^2 - 4` from `x0 = 3`, one iteration. -/
def cfgC4 : RunConfig :=
  { x0 := JsNum.num 3, iterations := 1, method := Method.standard,
    trueRootParsed := JsNum.num 2 }

/-- Standard run on `x^2 - 4` from `x0 = 3`, one iteration, true root 2
supplied. -/
def cfgC5 : RunConfig :=
  { x0 := JsNum.num 3, iterations := 1, method := Method.standard,
    trueRootParsed := JsNum.num 2 }

/-- Standard run on the expression `x` from `x0 = 0`, one iteration, no
true root: the anomaly scenario where the approximate error divides by
zero. -/
def cfgC6 : RunConfig :=
  { x0 := JsNum.num 0, iterations := 1, method := Method.standard,
    trueRootParsed := JsNum.nan }

/-- Standard run from `x0 = 1`, two iterations, paired with `evFailMid`:
iteration 1 moves the iterate to 0, where iteration 2 fails. -/
def cfgC7 : RunConfig :=
  { x0 := JsNum.num 1, iterations := 2, method := Method.standard,
    trueRootParsed := JsNum.nan }

/-- Standard run whose initial guess did not parse: `x0` is NaN. -/
def cfgC8 : RunConfig :=
  { x0 := JsNum.nan, iterations := 2, method := Method.standard,
    trueRootParsed := JsNum.nan }

/-- Standard run from `x0 = 1`, one iteration, paired with `evFailPP`
(the second derivative fails although the standard formula never uses
it). -/
def cfgC9 : RunConfig :=
  { x0 := JsNum.num 1, iterations := 1, method := Method.standard,
    trueRootParsed := JsNum.nan }

/-- Standard run on the constant expression from `x0 = 1`, two
iterations: the zero first derivative makes the very first update divide
by zero, and the non-finite iterate propagates into the second record. -/
def cfgC6b : RunConfig :=
  { x0 := JsNum.num 1, iterations := 2, method := Method.standard,
    trueRootParsed := JsNum.nan }

/-- Base configuration for the true-root irrelevance instance. -/
def cfgC10 : RunConfig :=
  { x0 := JsNum.num 1, iterations := 1, method := Method.standard,
    trueRootParsed := JsNum.num 2 }

/-- The record list of the scenario-B run. -/
def recsC1 : List IterationResult :=
  (calculateNewtonRaphson evCubic cfgC1).toOption.getD []

/-- The first record of the scenario-B run. -/
def recC1 : IterationResult := recsC1.headI

/-- The record list of the converged three-iteration run. -/
def recsC2 : List IterationResult :=
  (calculateNewtonRaphson evPoly cfgC2).toOption.getD []

/-- The record list of the scenario-A run. -/
def recsC3 : List IterationResult :=
  (calculateNewtonRaphson evPoly cfgC3).toOption.getD []

/-- The record list of the one-iteration scenario-A run. -/
def recsC4 : List IterationResult :=
  (calculateNewtonRaphson evPoly cfgC4).toOption.getD []

/-- The first record of the one-iteration scenario-A run. -/
def recC4 : IterationResult := recsC4.headI

/-- The record list of the one-iteration run with true root 2. -/
def recsC5 : List IterationResult :=
  (calculateNewtonRaphson evPoly cfgC5).toOption.getD []

/-- The first record of the one-iteration run with true root 2. -/
def recC5 : IterationResult := recsC5.headI

/-! Helper lemmas about the `JsNum` arithmetic. -/

namespace JsNum

theorem div_def (a b : JsNum) : a / b = a.div b := rfl

theorem sub_def (a b : JsNum) : a - b = a.sub b := rfl

theorem mul_def (a b : JsNum) : a * b = a.mul b := rfl

/-- The absolute value of a quotient is the quotient of the absolute
values, also through the non-finite cases (the model has no negative
zero, so this holds unconditionally). -/
theorem absDiv (a b : JsNum) : (a.div b).abs = a.abs.div b.abs := by
  cases a with
  | nan => cases b <;> rfl
  | inf =>
    cases b with
    | num qb =>
      have hnb : ¬ |qb| < 0 := not_lt.mpr (abs_nonneg qb)
      simp only [div, abs, hnb, if_false]
      split_ifs <;> rfl
    | nan => rfl
    | inf => rfl
    | ninf => rfl
  | ninf =>
    cases b with
    | num qb =>
      have hnb : ¬ |qb| < 0 := not_lt.mpr (abs_nonneg qb)
      simp only [div, abs, hnb, if_false]
      split_ifs <;> rfl
    | nan => rfl
    | inf => rfl
    | ninf => rfl
  | num qa =>
    cases b with
    | nan => rfl
    | inf => simp [div, abs]
    | ninf => simp [div, abs]
    | num qb =>
      by_cases hb : qb = 0
      · subst hb
        by_cases ha : qa = 0
        · subst ha; simp [div, abs]
        · rcases lt_trichotomy qa 0 with h | h | h
          · simp [div, abs, ha, not_lt.mpr (le_of_lt h), abs_ne_zero.mpr ha,
              abs_pos.mpr ha]
          · exact absurd h ha
          · simp [div, abs, ha, h, abs_ne_zero.mpr ha, abs_pos.mpr ha]
      · simp [div, abs, hb, abs_ne_zero.mpr hb, abs_div]

/-- Dividing anything by the finite zero never yields a finite value. -/
theorem div_zero_not_finite (a : JsNum) : (a.div (num 0)).isFinite = false := by
  cases a with
  | num q =>
    simp only [div, if_true]
    split_ifs <;> rfl
  | nan => rfl
  | inf => simp [div, isFinite]
  | ninf => simp [div, isFinite]

/-- The absolute value of a non-finite value is non-finite. -/
theorem abs_not_finite {v : JsNum} (h : v.isFinite = false) :
    v.abs.isFinite = false := by
  cases v <;> simp_all [abs, isFinite]

/-- Multiplying a non-finite value by the finite 100 stays non-finite. -/
theorem mul_hundred_not_finite {v : JsNum} (h : v.isFinite = false) :
    (v.mul (num 100)).isFinite = false := by
  cases v with
  | num q => simp [isFinite] at h
  | nan => rfl
  | inf => simp [mul, isFinite]
  | ninf => simp [mul, isFinite]

end JsNum

/-! Helper lemmas about the engine. -/

theorem calcNR_def (ev : Evaluator) (cfg : RunConfig) :
    calculateNewtonRaphson ev cfg =
      runAux ev cfg.method (resolveTrueRoot cfg.trueRootParsed)
        cfg.iterations 0 cfg.x0 := rfl

/-- Inversion of a successful loop-body pass: the record's fields are the
full-precision values of the source, its displayed fields their
`toFixed(2)` images, and the next iterate obeys the selected update
formula. -/
theorem stepRecord_ok_spec {ev : Evaluator} {m : Method} {t : JsNum} {i : ℕ}
    {x : JsNum} {r : IterationResult}
    (h : stepRecord ev m t i x = Except.ok r) :
    r.iteration = i + 1 ∧ r.x = x ∧
    ev.f x = Except.ok r.fx ∧ ev.fp x = Except.ok r.fpx ∧
    r.ea = ((r.x_next - r.x) / r.x_next).abs * JsNum.num 100 ∧
    r.et = ((t - r.x_next) / t).abs * JsNum.num 100 ∧
    r.xDisp = r.x.toFixed2 ∧ r.fxDisp = r.fx.toFixed2 ∧
    r.fpxDisp = r.fpx.toFixed2 ∧ r.fppxDisp = Option.map JsNum.toFixed2 r.fppx ∧
    r.x_nextDisp = r.x_next.toFixed2 ∧ r.eaDisp = r.ea.toFixed2 ∧
    r.etDisp = r.et.toFixed2 ∧
    (m = Method.standard → r.fppx = none ∧ r.x_next = r.x - r.fx / r.fpx) ∧
    (m = Method.modified → r.fppx.isSome = true ∧
      ev.fpp x = Except.ok (r.fppx.getD JsNum.nan) ∧
      r.x_next = r.x -
        (r.fx * r.fpx) / (r.fpx * r.fpx - r.fx * (r.fppx.getD JsNum.nan))) := by
  cases m with
  | standard =>
    simp only [stepRecord] at h
    cases hf : ev.f x with
    | error e => rw [hf] at h; simp [Except.bind] at h
    | ok fx =>
      rw [hf] at h
      simp only [Except.bind] at h
      cases hp : ev.fp x with
      | error e => rw [hp] at h; simp [Except.bind] at h
      | ok fpx =>
        rw [hp] at h
        simp only [Except.bind] at h
        cases hpp : ev.fpp x with
        | error e => rw [hpp] at h; simp [Except.bind] at h
        | ok fppx =>
          rw [hpp] at h
          simp only [Except.bind] at h
          injection h with h2
          subst h2
          refine ⟨rfl, rfl, rfl, rfl, rfl, rfl, rfl, rfl, rfl, rfl, rfl, rfl,
            rfl, fun _ => ⟨rfl, rfl⟩, fun hc => Method.noConfusion hc⟩
  | modified =>
    simp only [stepRecord] at h
    cases hf : ev.f x with
    | error e => rw [hf] at h; simp [Except.bind] at h
    | ok fx =>
      rw [hf] at h
      simp only [Except.bind] at h
      cases hp : ev.fp x with
      | error e => rw [hp] at h; simp [Except.bind] at h
      | ok fpx =>
        rw [hp] at h
        simp only [Except.bind] at h
        cases hpp : ev.fpp x with
        | error e => rw [hpp] at h; simp [Except.bind] at h
        | ok fppx =>
          rw [hpp] at h
          simp only [Except.bind] at h
          injection h with h2
          subst h2
          refine ⟨rfl, rfl, rfl, rfl, rfl, rfl, rfl, rfl, rfl, rfl, rfl, rfl,
            rfl, fun hc => Method.noConfusion hc, fun _ => ⟨rfl, rfl, rfl⟩⟩

/-- A loop-body pass succeeds whenever the three evaluations succeed. -/
theorem stepRecord_ok_of_evals {ev : Evaluator} {m : Method} {t : JsNum}
    {i : ℕ} {x : JsNum}
    (hf : ∃ v, ev.f x = Except.ok v) (hp : ∃ v, ev.fp x = Except.ok v)
    (hpp : ∃ v, ev.fpp x = Except.ok v) :
    ∃ r, stepRecord ev m t i x = Except.ok r := by
  obtain ⟨a, hf⟩ := hf
  obtain ⟨b, hp⟩ := hp
  obtain ⟨c, hpp⟩ := hpp
  cases m <;>
    · simp only [stepRecord]
      rw [hf]
      simp only [Except.bind]
      rw [hp]
      simp only [Except.bind]
      rw [hpp]
      simp only [Except.bind]
      exact ⟨_, rfl⟩

/-- A loop-body pass fails with the underlying message exactly when one of
the three evaluations, tried in source order, fails with it. -/
theorem stepRecord_error_of_evals {ev : Evaluator} {m : Method} {t : JsNum}
    {i : ℕ} {x : JsNum} {msg : String}
    (h : ev.f x = Except.error msg ∨
      (∃ a, ev.f x = Except.ok a ∧ (ev.fp x = Except.error msg ∨
        (∃ b, ev.fp x = Except.ok b ∧ ev.fpp x = Except.error msg)))) :
    stepRecord ev m t i x = Except.error msg := by
  cases m <;>
    · simp only [stepRecord]
      rcases h with hf | ⟨a, hf, hp | ⟨b, hp, hpp⟩⟩
      · rw [hf]; rfl
      · rw [hf]
        simp only [Except.bind]
        rw [hp]
      · rw [hf]
        simp only [Except.bind]
        rw [hp]
        simp only [Except.bind]
        rw [hpp]

/-- Inversion of a successful nonempty loop: the first pass and the
remaining loop both succeeded, and the remaining loop was entered at the
full-precision `x_next` of the first record. -/
theorem runAux_ok_succ {ev : Evaluator} {m : Method} {t : JsNum} {n i : ℕ}
    {x : JsNum} {recs : List IterationResult}
    (h : runAux ev m t (n + 1) i x = Except.ok recs) :
    ∃ r rest, stepRecord ev m t i x = Except.ok r ∧
      runAux ev m t n (i + 1) r.x_next = Except.ok rest ∧ recs = r :: rest := by
  simp only [runAux] at h
  cases hs : stepRecord ev m t i x with
  | error e => rw [hs] at h; simp [Except.bind] at h
  | ok r =>
    rw [hs] at h
    simp only [Except.bind] at h
    cases hr : runAux ev m t n (i + 1) r.x_next with
    | error e => rw [hr] at h; simp [Except.bind] at h
    | ok rest =>
      rw [hr] at h
      simp only [Except.bind] at h
      injection h with h2
      exact ⟨r, rest, rfl, hr, h2.symm⟩

/-- A successful loop of `n` remaining passes produces exactly `n`
records. -/
theorem runAux_ok_length {ev : Evaluator} {m : Method} {t : JsNum} :
    ∀ {n i : ℕ} {x : JsNum} {recs : List IterationResult},
      runAux ev m t n i x = Except.ok recs → recs.length = n := by
  intro n
  induction n with
  | zero =>
    intro i x recs h
    simp only [runAux] at h
    injection h with h2
    rw [← h2]; rfl
  | succ n ih =>
    intro i x recs h
    obtain ⟨r, rest, _, hr, rfl⟩ := runAux_ok_succ h
    simp [ih hr]

/-- The first record of a successful loop carries the entering iterate. -/
theorem runAux_ok_head {ev : Evaluator} {m : Method} {t : JsNum} :
    ∀ {n i : ℕ} {x : JsNum} {recs : List IterationResult},
      runAux ev m t n i x = Except.ok recs →
      ∀ r, recs.get? 0 = some r → r.x = x := by
  intro n
  cases n with
  | zero =>
    intro i x recs h r hr
    simp only [runAux] at h
    injection h with h2
    rw [← h2] at hr
    simp at hr
  | succ n =>
    intro i x recs h r hr
    obtain ⟨r0, rest, hs, _, rfl⟩ := runAux_ok_succ h
    simp only [List.get?_cons_zero, Option.some.injEq] at hr
    subst hr
    exact (stepRecord_ok_spec hs).2.1

/-- Full-precision chaining: in a successful loop, each record's entering
iterate equals the previous record's full-precision next iterate. -/
theorem runAux_ok_chain {ev : Evaluator} {m : Method} {t : JsNum} :
    ∀ {n i : ℕ} {x : JsNum} {recs : List IterationResult},
      runAux ev m t n i x = Except.ok recs →
      ∀ j r r₂, recs.get? j = some r → recs.get? (j + 1) = some r₂ →
        r₂.x = r.x_next := by
  intro n
  induction n with
  | zero =>
    intro i x recs h j r r₂ h1 _
    simp only [runAux] at h
    injection h with h2
    rw [← h2] at h1
    simp at h1
  | succ n ih =>
    intro i x recs h j r r₂ h1 h2
    obtain ⟨r0, rest, hs, hr, rfl⟩ := runAux_ok_succ h
    cases j with
    | zero =>
      simp only [List.get?_cons_zero, Option.some.injEq] at h1
      subst h1
      simp only [List.get?_cons_succ] at h2
      exact runAux_ok_head hr r₂ h2
    | succ j =>
      simp only [List.get?_cons_succ] at h1 h2
      exact ih hr j r r₂ h1 h2

/-- Every record of a successful loop was produced by some loop-body
pass. -/
theorem runAux_ok_mem {ev : Evaluator} {m : Method} {t : JsNum} :
    ∀ {n i : ℕ} {x : JsNum} {recs : List IterationResult},
      runAux ev m t n i x = Except.ok recs →
      ∀ r ∈ recs, ∃ j y, stepRecord ev m t j y = Except.ok r := by
  intro n
  induction n with
  | zero =>
    intro i x recs h r hr
    simp only [runAux] at h
    injection h with h2
    rw [← h2] at hr
    simp at hr
  | succ n ih =>
    intro i x recs h r hr
    obtain ⟨r0, rest, hs, hrest, rfl⟩ := runAux_ok_succ h
    rcases List.mem_cons.mp hr with rfl | hr
    · exact ⟨i, x, hs⟩
    · exact ih hrest r hr

/-- A totally succeeding evaluator makes the whole loop succeed, with
exactly `n` records, whatever (finite or non-finite) values arise. -/
theorem runAux_total {ev : Evaluator} {m : Method} {t : JsNum}
    (hf : ∀ y, ∃ v, ev.f y = Except.ok v)
    (hp : ∀ y, ∃ v, ev.fp y = Except.ok v)
    (hpp : ∀ y, ∃ v, ev.fpp y = Except.ok v) :
    ∀ (n i : ℕ) (x : JsNum),
      ∃ recs, runAux ev m t n i x = Except.ok recs ∧ recs.length = n := by
  intro n
  induction n with
  | zero => intro i x; exact ⟨[], rfl, rfl⟩
  | succ n ih =>
    intro i x
    obtain ⟨r, hs⟩ := stepRecord_ok_of_evals (m := m) (t := t) (i := i)
      (hf x) (hp x) (hpp x)
    obtain ⟨rest, hr, hlen⟩ := ih (i + 1) r.x_next
    refine ⟨r :: rest, ?_, by simp [hlen]⟩
    simp only [runAux]
    rw [hs]
    simp only [Except.bind]
    rw [hr]

/-- A loop-body failure at a reached iterate aborts the whole loop with
the same message (and hence, by the result type, without any partial
record list). -/
theorem runAux_error_at {ev : Evaluator} {m : Method} {t : JsNum}
    {msg : String} :
    ∀ (k : ℕ) {n i : ℕ} {x y : JsNum}, k < n →
      iterAfter ev m t i k x = Except.ok y →
      stepRecord ev m t (i + k) y = Except.error msg →
      runAux ev m t n i x = Except.error msg := by
  intro k
  induction k with
  | zero =>
    intro n i x y hk hy hstep
    simp only [iterAfter] at hy
    injection hy with hy
    subst hy
    cases n with
    | zero => omega
    | succ n =>
      simp only [Nat.add_zero] at hstep
      simp only [runAux]
      rw [hstep]; rfl
  | succ k ih =>
    intro n i x y hk hy hstep
    simp only [iterAfter] at hy
    cases hs : stepRecord ev m t i x with
    | error e => rw [hs] at hy; simp [Except.bind] at hy
    | ok r =>
      rw [hs] at hy
      simp only [Except.bind] at hy
      cases n with
      | zero => omega
      | succ n =>
        have hidx : i + 1 + k = i + (k + 1) := by omega
        rw [← hidx] at hstep
        have hrec : runAux ev m t n (i + 1) r.x_next = Except.error msg :=
          ih (by omega) hy hstep
        simp only [runAux]
        rw [hs]
        simp only [Except.bind]
        rw [hrec]

/-- Binding a success-producing continuation does not change whether a
result is a success. -/
theorem exOk_bind_ok {ε α β : Type} (ma : Except ε α) (k : α → β) :
    exOk (Except.bind ma fun a => Except.ok (k a)) = exOk ma := by
  cases ma <;> rfl

/-- The resolved true-root value influences neither whether a loop-body
pass fails nor its message. -/
theorem stepRecord_t_err {ev : Evaluator} {m : Method} {t₁ : JsNum}
    (t₂ : JsNum) {i : ℕ} {x : JsNum} {e : String}
    (h : stepRecord ev m t₁ i x = Except.error e) :
    stepRecord ev m t₂ i x = Except.error e := by
  cases m <;>
    · simp only [stepRecord] at h ⊢
      cases hf : ev.f x with
      | error e₂ =>
        rw [hf] at h
        simp only [Except.bind] at h ⊢
        exact h
      | ok a =>
        rw [hf] at h
        simp only [Except.bind] at h ⊢
        cases hp : ev.fp x with
        | error e₂ =>
          rw [hp] at h
          simp only [Except.bind] at h ⊢
          exact h
        | ok b =>
          rw [hp] at h
          simp only [Except.bind] at h ⊢
          cases hpp : ev.fpp x with
          | error e₂ =>
            rw [hpp] at h
            simp only [Except.bind] at h ⊢
            exact h
          | ok c =>
            rw [hpp] at h
            simp only [Except.bind] at h
            simp at h

/-- The resolved true-root value influences neither whether a loop-body
pass succeeds nor the full-precision next iterate it produces. -/
theorem stepRecord_t_ok {ev : Evaluator} {m : Method} {t₁ : JsNum}
    (t₂ : JsNum) {i : ℕ} {x : JsNum} {r₁ : IterationResult}
    (h : stepRecord ev m t₁ i x = Except.ok r₁) :
    ∃ r₂, stepRecord ev m t₂ i x = Except.ok r₂ ∧ r₂.x_next = r₁.x_next := by
  cases m <;>
    · simp only [stepRecord] at h ⊢
      cases hf : ev.f x with
      | error e => rw [hf] at h; simp [Except.bind] at h
      | ok a =>
        rw [hf] at h
        simp only [Except.bind] at h ⊢
        cases hp : ev.fp x with
        | error e => rw [hp] at h; simp [Except.bind] at h
        | ok b =>
          rw [hp] at h
          simp only [Except.bind] at h ⊢
          cases hpp : ev.fpp x with
          | error e => rw [hpp] at h; simp [Except.bind] at h
          | ok c =>
            rw [hpp] at h
            simp only [Except.bind] at h ⊢
            injection h with h2
            exact ⟨_, rfl, by rw [← h2]⟩

/-- The resolved true-root value never influences whether the loop
succeeds. -/
theorem runAux_t_exOk {ev : Evaluator} {m : Method} (t₁ t₂ : JsNum) :
    ∀ (n i : ℕ) (x : JsNum),
      exOk (runAux ev m t₁ n i x) = exOk (runAux ev m t₂ n i x) := by
  intro n
  induction n with
  | zero => intro i x; rfl
  | succ n ih =>
    intro i x
    simp only [runAux]
    cases hs : stepRecord ev m t₁ i x with
    | error e =>
      rw [stepRecord_t_err t₂ hs]
      rfl
    | ok r =>
      obtain ⟨r₂, hs₂, hx⟩ := stepRecord_t_ok t₂ hs
      rw [hs₂]
      simp only [Except.bind]
      rw [hx]
      have hih := ih (i + 1) r.x_next
      cases h1 : runAux ev m t₁ n (i + 1) r.x_next with
      | error e =>
        rw [h1] at hih
        cases h2 : runAux ev m t₂ n (i + 1) r.x_next with
        | error e₂ => rfl
        | ok l₂ => rw [h2] at hih; simp [exOk] at hih
      | ok l₁ =>
        rw [h1] at hih
        cases h2 : runAux ev m t₂ n (i + 1) r.x_next with
        | error e₂ => rw [h2] at hih; simp [exOk] at hih
        | ok l₂ => rfl

/-- The caller-supplied true-root value never influences whether a run
succeeds. -/
theorem calcNR_trueRoot_exOk (ev : Evaluator) (cfg : RunConfig)
    (v w : JsNum) :
    exOk (calculateNewtonRaphson ev { cfg with trueRootParsed := v }) =
      exOk (calculateNewtonRaphson ev { cfg with trueRootParsed := w }) := by
  simp only [calculateNewtonRaphson]
  exact runAux_t_exOk _ _ _ _ _

/-! The claim theorems. -/

/-- C1: for every record of a successful run, the full-precision next
iterate equals the selected method's update formula applied to the
record's full-precision entering iterate and the evaluator's values
there: `x_next = x - f(x) / fp(x)` under the standard method, and
`x_next = x - (f(x) * fp(x)) / (fp(x)^2 - f(x) * fpp(x))` under the
modified method (the standard record carries no second derivative). -/
theorem updateFormulaLaw (ev : Evaluator) (cfg : RunConfig)
    (recs : List IterationResult)
    (hrun : calculateNewtonRaphson ev cfg = Except.ok recs)
    (r : IterationResult) (hr : r ∈ recs) :
    ev.f r.x = Except.ok r.fx ∧ ev.fp r.x = Except.ok r.fpx ∧
    (cfg.method = Method.standard →
      r.fppx = none ∧ r.x_next = r.x - r.fx / r.fpx) ∧
    (cfg.method = Method.modified →
      r.fppx.isSome = true ∧
      ev.fpp r.x = Except.ok (r.fppx.getD JsNum.nan) ∧
      r.x_next = r.x -
        (r.fx * r.fpx) / (r.fpx * r.fpx - r.fx * (r.fppx.getD JsNum.nan))) := by
  rw [calcNR_def] at hrun
  obtain ⟨j, y, hstep⟩ := runAux_ok_mem hrun r hr
  obtain ⟨-, hx, hf, hp, -, -, -, -, -, -, -, -, -, hstd, hmod⟩ :=
    stepRecord_ok_spec hstep
  subst hx
  exact ⟨hf, hp, hstd, hmod⟩

/-- Witness for C1: the scenario-B modified run on the cubic from
`x0 = -1`. -/
theorem updateFormulaLaw_witness :
    calculateNewtonRaphson evCubic cfgC1 = Except.ok recsC1 ∧
    recC1 ∈ recsC1 ∧
    (evCubic.f recC1.x = Except.ok recC1.fx ∧
     evCubic.fp recC1.x = Except.ok recC1.fpx ∧
     (cfgC1.method = Method.standard →
       recC1.fppx = none ∧ recC1.x_next = recC1.x - recC1.fx / recC1.fpx) ∧
     (cfgC1.method = Method.modified →
       recC1.fppx.isSome = true ∧
       evCubic.fpp recC1.x = Except.ok (recC1.fppx.getD JsNum.nan) ∧
       recC1.x_next = recC1.x - (recC1.fx * recC1.fpx) /
         (recC1.fpx * recC1.fpx - recC1.fx * (recC1.fppx.getD JsNum.nan)))) ∧
    recsC1.map (fun r => (r.x, r.fx, r.fpx, r.fppx, r.x_next)) =
      [(JsNum.num (-1), JsNum.num 90, JsNum.num 12, some (JsNum.num (-132)),
        JsNum.num (-182 / 167))] :=
  ⟨by decide,
   List.get?_mem (show recsC1.get? 0 = some recC1 by decide),
   updateFormulaLaw evCubic cfgC1 recsC1 (by decide) recC1
     (List.get?_mem (show recsC1.get? 0 = some recC1 by decide)),
   by decide⟩

/-- C2: with an evaluator that succeeds throughout, a run performs
exactly `iterations` iterations with no early exit on convergence and
returns one record per iteration; the first record enters at `x0` and
every later record enters at the previous record's full-precision
`x_next`. -/
theorem fixedIterationTrace (ev : Evaluator) (cfg : RunConfig)
    (hf : ∀ y, ∃ v, ev.f y = Except.ok v)
    (hp : ∀ y, ∃ v, ev.fp y = Except.ok v)
    (hpp : ∀ y, ∃ v, ev.fpp y = Except.ok v) :
    ∃ recs, calculateNewtonRaphson ev cfg = Except.ok recs ∧
      recs.length = cfg.iterations ∧
      (∀ r, recs.get? 0 = some r → r.x = cfg.x0) ∧
      (∀ i r r₂, recs.get? i = some r → recs.get? (i + 1) = some r₂ →
        r₂.x = r.x_next) := by
  obtain ⟨recs, hrun, hlen⟩ := runAux_total hf hp hpp cfg.iterations 0 cfg.x0
  exact ⟨recs, hrun, hlen, fun r h => runAux_ok_head hrun r h,
    fun i r r₂ h1 h2 => runAux_ok_chain hrun i r r₂ h1 h2⟩

/-- Witness for C2: the standard run on `x^2 - 4` started exactly at the
root 2 still performs all three iterations (no convergence exit), every
record entering and leaving at 2. -/
theorem fixedIterationTrace_witness :
    (∃ recs, calculateNewtonRaphson evPoly cfgC2 = Except.ok recs ∧
      recs.length = cfgC2.iterations ∧
      (∀ r, recs.get? 0 = some r → r.x = cfgC2.x0) ∧
      (∀ i r r₂, recs.get? i = some r → recs.get? (i + 1) = some r₂ →
        r₂.x = r.x_next)) ∧
    recsC2.length = 3 ∧
    recsC2.map (fun r => (r.x, r.x_next)) =
      [(JsNum.num 2, JsNum.num 2), (JsNum.num 2, JsNum.num 2),
        (JsNum.num 2, JsNum.num 2)] :=
  ⟨fixedIterationTrace evPoly cfgC2 (fun y => ⟨_, rfl⟩) (fun y => ⟨_, rfl⟩)
      (fun y => ⟨_, rfl⟩),
   by decide, by decide⟩

/-- C3: rounding is display-only: in every successful run each record's
displayed fields are the `toFixed(2)` images of its full-precision
fields, and the value carried into the next iteration is the
full-precision `x_next` itself, never its rounded image.  (The engine is
embedded as a pure function of the configuration, so two runs with the
same configuration yield the same full-precision chain by
reflexivity.) -/
theorem roundingDisplayOnly (ev : Evaluator) (cfg : RunConfig)
    (recs : List IterationResult)
    (hrun : calculateNewtonRaphson ev cfg = Except.ok recs) :
    (∀ i r r₂, recs.get? i = some r → recs.get? (i + 1) = some r₂ →
      r₂.x = r.x_next) ∧
    (∀ r ∈ recs,
      r.xDisp = r.x.toFixed2 ∧ r.fxDisp = r.fx.toFixed2 ∧
      r.fpxDisp = r.fpx.toFixed2 ∧
      r.fppxDisp = Option.map JsNum.toFixed2 r.fppx ∧
      r.x_nextDisp = r.x_next.toFixed2 ∧ r.eaDisp = r.ea.toFixed2 ∧
      r.etDisp = r.et.toFixed2) := by
  rw [calcNR_def] at hrun
  refine ⟨fun i r r₂ h1 h2 => runAux_ok_chain hrun i r r₂ h1 h2, ?_⟩
  intro r hr
  obtain ⟨j, y, hstep⟩ := runAux_ok_mem hrun r hr
  obtain ⟨-, -, -, -, -, -, h7, h8, h9, h10, h11, h12, h13, -, -⟩ :=
    stepRecord_ok_spec hstep
  exact ⟨h7, h8, h9, h10, h11, h12, h13⟩

/-- Witness for C3: spec scenario A (`x^2 - 4`, `x0 = 3`, standard).
Iteration 1 computes the full-precision `x_next = 13/6` and displays
`2.17 = 217/100`; iteration 2 enters at the full-precision `13/6`, which
differs from the rounded display. -/
theorem roundingDisplayOnly_witness :
    calculateNewtonRaphson evPoly cfgC3 = Except.ok recsC3 ∧
    ((∀ i r r₂, recsC3.get? i = some r → recsC3.get? (i + 1) = some r₂ →
        r₂.x = r.x_next) ∧
     (∀ r ∈ recsC3,
        r.xDisp = r.x.toFixed2 ∧ r.fxDisp = r.fx.toFixed2 ∧
        r.fpxDisp = r.fpx.toFixed2 ∧
        r.fppxDisp = Option.map JsNum.toFixed2 r.fppx ∧
        r.x_nextDisp = r.x_next.toFixed2 ∧ r.eaDisp = r.ea.toFixed2 ∧
        r.etDisp = r.et.toFixed2)) ∧
    recsC3.map (fun r => (r.x, r.x_next, r.x_nextDisp)) =
      [(JsNum.num 3, JsNum.num (13 / 6), JsNum.num (217 / 100)),
        (JsNum.num (13 / 6), JsNum.num (313 / 156), JsNum.num (201 / 100))] ∧
    JsNum.num (13 / 6) ≠ JsNum.num (217 / 100) :=
  ⟨by decide, roundingDisplayOnly evPoly cfgC3 recsC3 (by decide),
   by decide, by decide⟩

/-- C4: for every record of a successful run, the approximate relative
error satisfies `ea = |x_next - x| / |x_next| * 100` on the unrounded
values — the new iterate `x_next` is the denominator — and the record's
displayed `Ea` is its `toFixed(2)` image. -/
theorem approxErrorLaw (ev : Evaluator) (cfg : RunConfig)
    (recs : List IterationResult)
    (hrun : calculateNewtonRaphson ev cfg = Except.ok recs)
    (r : IterationResult) (hr : r ∈ recs) :
    r.ea = (r.x_next - r.x).abs / r.x_next.abs * JsNum.num 100 ∧
    r.eaDisp = r.ea.toFixed2 := by
  rw [calcNR_def] at hrun
  obtain ⟨j, y, hstep⟩ := runAux_ok_mem hrun r hr
  obtain ⟨-, -, -, -, hea, -, -, -, -, -, -, h12, -, -, -⟩ :=
    stepRecord_ok_spec hstep
  refine ⟨?_, h12⟩
  rw [hea]
  simp only [JsNum.div_def]
  rw [JsNum.absDiv]

/-- Witness for C4: iteration 1 of scenario A has
`ea = |13/6 - 3| / |13/6| * 100 = 500/13`, displayed as
`38.46 = 3846/100`. -/
theorem approxErrorLaw_witness :
    calculateNewtonRaphson evPoly cfgC4 = Except.ok recsC4 ∧
    recC4 ∈ recsC4 ∧
    (recC4.ea =
        (recC4.x_next - recC4.x).abs / recC4.x_next.abs * JsNum.num 100 ∧
      recC4.eaDisp = recC4.ea.toFixed2) ∧
    recC4.ea = JsNum.num (500 / 13) ∧
    recC4.eaDisp = JsNum.num (3846 / 100) :=
  ⟨by decide,
   List.get?_mem (show recsC4.get? 0 = some recC4 by decide),
   approxErrorLaw evPoly cfgC4 recsC4 (by decide) recC4
     (List.get?_mem (show recsC4.get? 0 = some recC4 by decide)),
   by decide, by decide⟩

/-- C5: for every record of a successful run, when the supplied true root
parses to a nonzero finite value `t` the true relative error satisfies
`et = |t - x_next| / |t| * 100` on unrounded values; when no true root
was supplied (parse result NaN) the same formula is computed with the
reference value 0, which always yields a non-finite `et`. -/
theorem trueErrorLaw (ev : Evaluator) (cfg : RunConfig)
    (recs : List IterationResult)
    (hrun : calculateNewtonRaphson ev cfg = Except.ok recs) :
    (cfg.trueRootParsed.isFinite = true → cfg.trueRootParsed ≠ JsNum.num 0 →
      ∀ r ∈ recs, r.et = (cfg.trueRootParsed - r.x_next).abs /
        cfg.trueRootParsed.abs * JsNum.num 100) ∧
    (cfg.trueRootParsed = JsNum.nan →
      ∀ r ∈ recs,
        r.et = ((JsNum.num 0 - r.x_next) / JsNum.num 0).abs * JsNum.num 100 ∧
        r.et.isFinite = false) := by
  rw [calcNR_def] at hrun
  constructor
  · intro hfin hnz r hr
    obtain ⟨j, y, hstep⟩ := runAux_ok_mem hrun r hr
    obtain ⟨-, -, -, -, -, het, -, -, -, -, -, -, -, -, -⟩ :=
      stepRecord_ok_spec hstep
    have hnn : cfg.trueRootParsed ≠ JsNum.nan := by
      intro hc
      rw [hc] at hfin
      simp [JsNum.isFinite] at hfin
    have hres : resolveTrueRoot cfg.trueRootParsed = cfg.trueRootParsed := by
      simp [resolveTrueRoot, hnn, hnz]
    rw [het, hres]
    simp only [JsNum.div_def]
    rw [JsNum.absDiv]
  · intro hnan r hr
    obtain ⟨j, y, hstep⟩ := runAux_ok_mem hrun r hr
    obtain ⟨-, -, -, -, -, het, -, -, -, -, -, -, -, -, -⟩ :=
      stepRecord_ok_spec hstep
    have hres : resolveTrueRoot cfg.trueRootParsed = JsNum.num 0 := by
      rw [hnan]; decide
    rw [het, hres]
    refine ⟨rfl, ?_⟩
    have h1 := JsNum.div_zero_not_finite (JsNum.num 0 - r.x_next)
    have h2 := JsNum.abs_not_finite h1
    have h3 := JsNum.mul_hundred_not_finite h2
    simpa only [JsNum.div_def, JsNum.mul_def] using h3

/-- Witness for C5: scenario A with true root 2 supplied:
`et = |2 - 13/6| / |2| * 100 = 25/3`, displayed as `8.33 = 833/100`. -/
theorem trueErrorLaw_witness :
    calculateNewtonRaphson evPoly cfgC5 = Except.ok recsC5 ∧
    ((cfgC5.trueRootParsed.isFinite = true →
        cfgC5.trueRootParsed ≠ JsNum.num 0 →
        ∀ r ∈ recsC5, r.et = (cfgC5.trueRootParsed - r.x_next).abs /
          cfgC5.trueRootParsed.abs * JsNum.num 100) ∧
     (cfgC5.trueRootParsed = JsNum.nan →
        ∀ r ∈ recsC5,
          r.et =
            ((JsNum.num 0 - r.x_next) / JsNum.num 0).abs * JsNum.num 100 ∧
          r.et.isFinite = false)) ∧
    recC5.et = JsNum.num (25 / 3) ∧ recC5.etDisp = JsNum.num (833 / 100) ∧
    (calculateNewtonRaphson evId cfgC6).toOption.map
        (List.map fun r => r.et) = some [JsNum.nan] :=
  ⟨by decide, trueErrorLaw evPoly cfgC5 recsC5 (by decide),
   by decide, by decide, by decide⟩

/-- C6: numeric anomalies never abort a run: with an evaluator that
succeeds throughout, every run returns all `iterations` records whatever
values arise — a zero update denominator or a zero error denominator
merely puts the resulting non-finite value in the record, and it
propagates through the remaining iterations. -/
theorem nonFiniteNoAbort (ev : Evaluator) (cfg : RunConfig)
    (hf : ∀ y, ∃ v, ev.f y = Except.ok v)
    (hp : ∀ y, ∃ v, ev.fp y = Except.ok v)
    (hpp : ∀ y, ∃ v, ev.fpp y = Except.ok v) :
    ∃ recs, calculateNewtonRaphson ev cfg = Except.ok recs ∧
      recs.length = cfg.iterations := by
  obtain ⟨recs, hrun, hlen⟩ := runAux_total hf hp hpp cfg.iterations 0 cfg.x0
  exact ⟨recs, hrun, hlen⟩

/-- Witness for C6: the anomaly scenario `f(x) = x`, `x0 = 0`, standard:
`x_next = 0` and `Ea` divides by zero, yet the record is produced with
`ea = NaN`; and with a zero first derivative (`evFlat`) the non-finite
iterate from iteration 1 propagates into the entering `x` of
iteration 2. -/
theorem nonFiniteNoAbort_witness :
    (∃ recs, calculateNewtonRaphson evId cfgC6 = Except.ok recs ∧
      recs.length = cfgC6.iterations) ∧
    (calculateNewtonRaphson evId cfgC6).toOption.map
        (List.map fun r => (r.x_next, r.ea)) =
      some [(JsNum.num 0, JsNum.nan)] ∧
    (calculateNewtonRaphson evFlat cfgC6b).toOption.map
        (List.map fun r => (r.x, r.x_next)) =
      some [(JsNum.num 1, JsNum.ninf), (JsNum.ninf, JsNum.ninf)] :=
  ⟨nonFiniteNoAbort evId cfgC6 (fun y => ⟨_, rfl⟩) (fun y => ⟨_, rfl⟩)
      (fun y => ⟨_, rfl⟩),
   by decide, by decide⟩

/-- C7: an evaluation failure at any reached point of the run aborts the
whole run with the underlying message; the failing result carries no
record list, so the records computed before the failure are discarded. -/
theorem evaluatorFailureAborts (ev : Evaluator) (cfg : RunConfig) (k : ℕ)
    (x : JsNum) (msg : String)
    (hk : k < cfg.iterations)
    (hx : iterAfter ev cfg.method (resolveTrueRoot cfg.trueRootParsed) 0 k
      cfg.x0 = Except.ok x)
    (hfail : ev.f x = Except.error msg ∨
      (∃ a, ev.f x = Except.ok a ∧ (ev.fp x = Except.error msg ∨
        (∃ b, ev.fp x = Except.ok b ∧ ev.fpp x = Except.error msg)))) :
    calculateNewtonRaphson ev cfg = Except.error msg := by
  rw [calcNR_def]
  have hstep := stepRecord_error_of_evals (m := cfg.method)
    (t := resolveTrueRoot cfg.trueRootParsed) (i := 0 + k) hfail
  exact runAux_error_at k hk hx hstep

/-- Witness for C7: `evFailMid` moves the iterate from 1 to 0 in
iteration 1 and its first derivative fails at 0, so the two-iteration run
fails as a whole with the underlying message (iteration 1's record is
discarded). -/
theorem evaluatorFailureAborts_witness :
    calculateNewtonRaphson evFailMid cfgC7 = Except.error msgEvalFail :=
  evaluatorFailureAborts evFailMid cfgC7 1 (JsNum.num 0) msgEvalFail
    (by decide) (by decide)
    (Or.inr ⟨JsNum.num 0, rfl, Or.inl (by decide)⟩)

/-- C8 counterexample: the engine never validates `x0`.  With the
initial-guess parse result NaN (an unparseable text), the run does not
fail before or instead of iterating: it performs both iterations on the
non-finite value and returns two records whose iterates are all NaN. -/
theorem x0NoValidation_cex :
    exOk (calculateNewtonRaphson evPoly cfgC8) = true ∧
    (calculateNewtonRaphson evPoly cfgC8).toOption.map
        (List.map fun r => (r.x, r.x_next)) =
      some [(JsNum.nan, JsNum.nan), (JsNum.nan, JsNum.nan)] := by
  constructor
  · decide
  · decide

/-- C8 amended: the engine performs no finiteness validation of `x0`; a
non-finite initial guess is iterated on like any other value, producing
all `iterations` records — the first entering at NaN — and raising no
error. -/
theorem nonFiniteX0Runs (ev : Evaluator) (cfg : RunConfig)
    (hf : ∀ y, ∃ v, ev.f y = Except.ok v)
    (hp : ∀ y, ∃ v, ev.fp y = Except.ok v)
    (hpp : ∀ y, ∃ v, ev.fpp y = Except.ok v)
    (hx0 : cfg.x0 = JsNum.nan) :
    ∃ recs, calculateNewtonRaphson ev cfg = Except.ok recs ∧
      recs.length = cfg.iterations ∧
      ∀ r, recs.get? 0 = some r → r.x = JsNum.nan := by
  obtain ⟨recs, hrun, hlen⟩ := runAux_total hf hp hpp cfg.iterations 0 cfg.x0
  refine ⟨recs, hrun, hlen, fun r h => ?_⟩
  rw [← hx0]
  exact runAux_ok_head hrun r h

/-- Witness for C8 (amended): the NaN-guess run on `x^2 - 4` returns both
of its records, the first entering at NaN. -/
theorem nonFiniteX0Runs_witness :
    ∃ recs, calculateNewtonRaphson evPoly cfgC8 = Except.ok recs ∧
      recs.length = cfgC8.iterations ∧
      ∀ r, recs.get? 0 = some r → r.x = JsNum.nan :=
  nonFiniteX0Runs evPoly cfgC8 (fun y => ⟨_, rfl⟩) (fun y => ⟨_, rfl⟩)
    (fun y => ⟨_, rfl⟩) rfl

/-- C9: the second derivative is evaluated on every iteration also under
the standard method — although the standard update formula never uses it
and the standard record omits it — so a second-derivative evaluation
failure at any reached iterate aborts a standard run with its message,
even when the function and first derivative evaluate fine there. -/
theorem secondDerivAlwaysEvaluated (ev : Evaluator) (cfg : RunConfig)
    (k : ℕ) (x a b : JsNum) (msg : String)
    (hm : cfg.method = Method.standard)
    (hk : k < cfg.iterations)
    (hx : iterAfter ev cfg.method (resolveTrueRoot cfg.trueRootParsed) 0 k
      cfg.x0 = Except.ok x)
    (hfv : ev.f x = Except.ok a) (hpv : ev.fp x = Except.ok b)
    (hppv : ev.fpp x = Except.error msg) :
    calculateNewtonRaphson ev cfg = Except.error msg := by
  rw [calcNR_def]
  have hstep := stepRecord_error_of_evals (m := cfg.method)
    (t := resolveTrueRoot cfg.trueRootParsed) (i := 0 + k)
    (Or.inr ⟨a, hfv, Or.inr ⟨b, hpv, hppv⟩⟩)
  exact runAux_error_at k hk hx hstep

/-- Witness for C9: a standard run whose second derivative fails at the
initial iterate aborts immediately with that message. -/
theorem secondDerivAlwaysEvaluated_witness :
    calculateNewtonRaphson evFailPP cfgC9 = Except.error msgSecondDeriv :=
  secondDerivAlwaysEvaluated evFailPP cfgC9 0 (JsNum.num 1) (JsNum.num 1)
    (JsNum.num 1) msgSecondDeriv rfl (by decide) rfl rfl rfl rfl

/-- C10 counterexample: a true-root text whose parse result is Infinity
(for example the literal text "Infinity", which `parseFloat` accepts)
does not parse to a nonzero finite number, yet it is not treated as the
reference value 0: `parseFloat(trueRoot) || 0` keeps every truthy value,
including the infinities. -/
theorem trueRootCoercion_cex :
    JsNum.inf.isFinite = false ∧ resolveTrueRoot JsNum.inf = JsNum.inf ∧
    JsNum.inf ≠ JsNum.num 0 := by decide

/-- C10 amended: the true-root resolution `parseFloat(trueRoot) || 0`
replaces exactly the falsy parse results — NaN (empty or unparseable
text, including the literal "0"... i.e. parse result 0) — by the
reference value 0 and keeps every other parse result, including the
infinities; and no error of any kind is ever raised for a malformed
true-root input: whether a run succeeds never depends on the true-root
value. -/
theorem trueRootResolution :
    resolveTrueRoot JsNum.nan = JsNum.num 0 ∧
    resolveTrueRoot (JsNum.num 0) = JsNum.num 0 ∧
    (∀ v, v ≠ JsNum.nan → v ≠ JsNum.num 0 → resolveTrueRoot v = v) ∧
    (∀ (ev : Evaluator) (cfg : RunConfig) (v w : JsNum),
      exOk (calculateNewtonRaphson ev { cfg with trueRootParsed := v }) =
        exOk (calculateNewtonRaphson ev { cfg with trueRootParsed := w })) := by
  refine ⟨by decide, by decide, ?_, ?_⟩
  · intro v h1 h2
    simp [resolveTrueRoot, h1, h2]
  · intro ev cfg v w
    exact calcNR_trueRoot_exOk ev cfg v w

/-- Witness for C10 (amended): an Infinity parse result is kept, and a
run's success is unchanged between a missing true root (NaN) and the
value 5. -/
theorem trueRootResolution_witness :
    resolveTrueRoot JsNum.inf = JsNum.inf ∧
    exOk (calculateNewtonRaphson evId
        ({ cfgC10 with trueRootParsed := JsNum.nan } : RunConfig)) =
      exOk (calculateNewtonRaphson evId
        ({ cfgC10 with trueRootParsed := JsNum.num 5 } : RunConfig)) :=
  ⟨trueRootResolution.2.2.1 JsNum.inf (by decide) (by decide),
   trueRootResolution.2.2.2 evId cfgC10 JsNum.nan (JsNum.num 5)⟩

end Komnum
